import Mathlib

/-!
Verification of the pin-manager reconciliation engine (`pin.py`).

The remote ordered collection (a Spotify playlist) is modelled as a
`List String` of track URIs, threaded explicitly through each operation.
Remote mutation calls that the Python code issues (`add_tracks`, `reorder`,
`remove_all_occurrences`) are modelled as pure state transformations on that
list plus a recorded `ApiCall`; `die` (which calls `sys.exit`) and raised
Python exceptions are modelled as `Except.error`, which aborts everything
after it exactly as process exit / an uncaught exception does.
-/

set_option maxRecDepth 20000

deriving instance DecidableEq for Except

namespace PinManager

/-! ## List utilities mirroring Python list primitives

`listInsertAt` is Python's `list.insert` (clamps an out-of-range index to the
end); `listRemoveAt` is `list.pop(i)` restricted to the resulting list.
-/

def listInsertAt {α : Type} : Nat → α → List α → List α
  | 0, x, l => x :: l
  | _ + 1, x, [] => [x]
  | n + 1, x, a :: l => a :: listInsertAt n x l

def listRemoveAt {α : Type} : Nat → List α → List α
  | _, [] => []
  | 0, _ :: l => l
  | n + 1, a :: l => a :: listRemoveAt n l

/-- Charwise test that the first list starts the second (used to model a
regex literal matching at a position). -/
def listLeads : List Char → List Char → Bool
  | [], _ => true
  | _ :: _, [] => false
  | a :: as, b :: bs => a == b && listLeads as bs

/-! ## Model of `normalize_track_id` (pin.py lines 89-98)

Python:
  SPOTIFY_ID_RX = re.compile(r"(?:spotify:(?:track|playlist):)?([A-Za-z0-9]\x7b22\x7d)")
  TRACK_URL_RX = re.compile(r"open\.spotify\.com/track/([A-Za-z0-9]\x7b22\x7d)")
  def normalize_track_id(s):
      s = s.strip()
      m = TRACK_URL_RX.search(s) or SPOTIFY_ID_RX.search(s)
      if not m: raise ValueError(...)
      return "spotify:track:" + m.group(1)

`re.search` returns the leftmost match; at one position the optional prefix
group is tried greedily (with backtracking to the bare alternative).
-/

def isSpaceChar (c : Char) : Bool :=
  c == ' ' || c == '\t' || c == '\n' || c == '\r' || c == '\x0b' || c == '\x0c'

def isAlnumChar (c : Char) : Bool :=
  decide ('A' ≤ c ∧ c ≤ 'Z') || decide ('a' ≤ c ∧ c ≤ 'z') || decide ('0' ≤ c ∧ c ≤ '9')

/-- Python `str.strip()` (ASCII whitespace suffices for this code's inputs). -/
def pyStrip (l : List Char) : List Char :=
  ((l.dropWhile isSpaceChar).reverse.dropWhile isSpaceChar).reverse

/-- A `[A-Za-z0-9]\x7b22\x7d` match anchored at the head of `l`: the first 22
characters, when they exist and are all alphanumeric. -/
def window22 (l : List Char) : Option (List Char) :=
  if (l.take 22).all isAlnumChar && (l.take 22).length == 22 then some (l.take 22)
  else none

/-- The leftmost 22-character alphanumeric run ("the first such run" in the
claim's words): first position whose window matches. -/
def firstWindow : List Char → Option (List Char)
  | [] => none
  | c :: rest =>
    match window22 (c :: rest) with
    | some w => some w
    | none => firstWindow rest

def trackUriLit : List Char := "spotify:track:".data
def playlistUriLit : List Char := "spotify:playlist:".data
def trackUrlLit : List Char := "open.spotify.com/track/".data

/-- Model of `SPOTIFY_ID_RX` matching anchored at a position: try the
`spotify:track:` prefix, backtrack to `spotify:playlist:`, backtrack to the
bare 22-character class. -/
def matchSpotifyIdAt (l : List Char) : Option (List Char) :=
  match (if listLeads trackUriLit l then window22 (l.drop 14) else none) with
  | some w => some w
  | none =>
    match (if listLeads playlistUriLit l then window22 (l.drop 17) else none) with
    | some w => some w
    | none => window22 l

/-- Model of `TRACK_URL_RX` matching anchored at a position. -/
def matchTrackUrlAt (l : List Char) : Option (List Char) :=
  if listLeads trackUrlLit l then window22 (l.drop 23) else none

/-- Model of `re.search`: leftmost position at which the pattern matches. -/
def reSearch (m : List Char → Option (List Char)) : List Char → Option (List Char)
  | [] => m []
  | c :: rest =>
    match m (c :: rest) with
    | some w => some w
    | none => reSearch m rest

def normalizeCore (l : List Char) : Option (List Char) :=
  let s := pyStrip l
  match reSearch matchTrackUrlAt s with
  | some w => some w
  | none => reSearch matchSpotifyIdAt s

def normalize_track_id (s : String) : Except String String :=
  match normalizeCore s.data with
  | some w => Except.ok (String.mk (trackUriLit ++ w))
  | none => Except.error "Cannot recognize track_id"

/-! ## Model of `ensure_no_duplicates` (pin.py lines 295-337)

The playlist state is a list of URIs; `sp.get_playlist_items` re-reads the
current state, `sp.remove_all_occurrences` filters, `sp.add_tracks` with
`position=None` appends. With no external edits, the second read returns the
state produced by the first removal.
-/

/-- The `dups` scan: URIs whose occurrence has already been seen (second and
later occurrences, in order). `acc` is the `seen` set. -/
def dupScan : List String → List String → List String
  | _, [] => []
  | seen, u :: rest =>
    if u ∈ seen then u :: dupScan seen rest else dupScan (u :: seen) rest

/-- The `first_seen` map's keys in insertion (= first-seen) order. -/
def dedupFirstSeen : List String → List String → List String
  | _, [] => []
  | seen, u :: rest =>
    if u ∈ seen then dedupFirstSeen seen rest else u :: dedupFirstSeen (u :: seen) rest

/-- Model of `remove_all_occurrences`: drop every element that occurs in `uris`. -/
def removeAllOccurrences (uris : List String) (l : List String) : List String :=
  l.filter (fun u => decide (u ∉ uris))

def ensure_no_duplicates (items : List String) : List String :=
  let dups := dupScan [] items
  if dups.isEmpty then items
  else
    -- sp.remove_all_occurrences(playlist_id, list(set(dups)))
    let items2 := removeAllOccurrences dups items
    -- re-read; collect positions of second+ occurrences
    let removePositions := dupScan [] items2
    if removePositions.isEmpty then items2
    else
      -- remove all, then add back one copy of each in first-seen order
      let uniqueOrder := dedupFirstSeen [] items2
      removeAllOccurrences uniqueOrder items2 ++ uniqueOrder

/-! ## Model of the pin loop of `sync_playlist_new` (pin.py lines 358-392) -/

structure PinRec where
  track_id : String
  position : Int
deriving DecidableEq, Repr

inductive ApiCall where
  | add (uri : String) (position : Option Nat)
  | reorder (range_start insert_before range_length : Nat)
deriving DecidableEq, Repr

/-- Model of `uris.index(uri)` wrapped in try/except: first index or `none`. -/
def find_index : List String → String → Option Nat
  | [], _ => none
  | u :: rest, uri =>
    if u = uri then some 0 else (find_index rest uri).map (· + 1)

/-- The local-mirror update after a move (pin.py lines 386-389):
pop at `cur`; if `desired > cur` decrement `desired`; insert the popped
element at the corrected index. -/
def mirrorMove {α : Type} (l : List α) (cur desired : Nat) : List α :=
  match l[cur]? with
  | none => l
  | some x => listInsertAt (if desired > cur then desired - 1 else desired) x (listRemoveAt cur l)

/-- The documented semantics of the remote single-item range move
(`reorder` with `range_length=1`): remove the item at `cur` and re-insert it
immediately before the element that sat at index `desired` in the original
ordering (at the end when `desired` is the original length). Stated
independently, segment-by-segment, to compare against `mirrorMove`. -/
def spotifyMoveOne {α : Type} (l : List α) (cur desired : Nat) : List α :=
  match l[cur]? with
  | none => l
  | some x =>
    if cur < desired then
      l.take cur ++ (l.drop (cur + 1)).take (desired - (cur + 1)) ++ [x] ++ l.drop desired
    else
      l.take desired ++ [x] ++ (l.drop desired).take (cur - desired) ++ l.drop (cur + 1)

/-- One iteration of the pin loop: returns the updated local mirror and the
remote mutation calls issued (empty when the pin is a no-op). -/
def syncPinStep (uris : List String) (pin : PinRec) : Except String (List String × List ApiCall) := do
  let uri ← normalize_track_id pin.track_id
  let target : Int := pin.position
  let ib0 : Nat := (max 0 (target - 1)).toNat
  let currentIdx := find_index uris uri
  let n := uris.length
  let insertBefore : Nat :=
    if target > (n : Int) + (if currentIdx.isSome then 0 else 1) then n else ib0
  match currentIdx with
  | none =>
    let posArg : Option Nat := if insertBefore ≤ n then some insertBefore else none
    Except.ok (listInsertAt (if insertBefore ≤ n then insertBefore else n) uri uris,
               [ApiCall.add uri posArg])
  | some cur =>
    let desired := min insertBefore uris.length
    if cur ≠ desired then
      Except.ok (mirrorMove uris cur desired, [ApiCall.reorder cur desired 1])
    else
      Except.ok (uris, [])

/-- Stable insertion used to model Python's stable `sorted(..., key=position)`. -/
def insertPin (p : PinRec) : List PinRec → List PinRec
  | [] => [p]
  | q :: rest => if p.position ≤ q.position then p :: q :: rest else q :: insertPin p rest

def sortPins (pins : List PinRec) : List PinRec :=
  pins.foldr insertPin []

def runPins (uris : List String) (pins : List PinRec) : Except String (List String × List ApiCall) :=
  pins.foldlM
    (fun acc pin => do
      let (u2, cs) ← syncPinStep acc.1 pin
      pure (u2, acc.2 ++ cs))
    (uris, [])

/-- The whole pin loop: sort by ascending position, then fold the step. -/
def syncPinLoop (uris : List String) (pins : List PinRec) : Except String (List String × List ApiCall) :=
  runPins uris (sortPins pins)

/-! ## Model of `SpotifyClient._req` (pin.py lines 177-193)

Python:
  for attempt in range(5):
      resp = requests.request(...)
      if resp.status_code == 429:
          retry = int(resp.headers.get("Retry-After", "1")); time.sleep(retry); continue
      if resp.status_code in (500, 502, 503, 504):
          time.sleep(1 + attempt); continue
      if resp.status_code == 401:
          self._refresh_access_token(); continue
      return resp
  return resp

The successive HTTP responses are a script `Nat → Response` (`script i` is
the response to the `i`-th request of this logical call). Sleeps are recorded
as a list of durations and refreshes as a count. The model starts from a
valid non-expired `AuthSession`, so `_headers()` performs no expiry-driven
refresh; only the explicit `401` refresh is counted. The response body is
carried abstractly as the item list the caller would extract from its JSON.
-/

structure Response where
  status : Nat
  retryAfter : Option Nat := none
  items : List String := []
deriving DecidableEq, Repr

structure ReqResult where
  response : Response
  sleeps : List Nat
  refreshes : Nat
  attempts : Nat
deriving DecidableEq, Repr

def reqGo (script : Nat → Response) : Nat → Nat → List Nat → Nat → Response → ReqResult
  | 0, attempt, sleeps, refr, last => ⟨last, sleeps, refr, attempt⟩
  | rem + 1, attempt, sleeps, refr, _ =>
    let resp := script attempt
    if resp.status = 429 then
      reqGo script rem (attempt + 1) (sleeps ++ [resp.retryAfter.getD 1]) refr resp
    else if resp.status = 500 ∨ resp.status = 502 ∨ resp.status = 503 ∨ resp.status = 504 then
      reqGo script rem (attempt + 1) (sleeps ++ [1 + attempt]) refr resp
    else if resp.status = 401 then
      reqGo script rem (attempt + 1) sleeps (refr + 1) resp
    else ⟨resp, sleeps, refr, attempt + 1⟩

def req (script : Nat → Response) : ReqResult :=
  reqGo script 5 0 [] 0 ⟨0, none, []⟩

/-! Characterization helpers for the retry loop: which statuses retry, what
is slept, how many refreshes happen, and the first non-retried attempt. -/

def retryableStatus (r : Response) : Prop :=
  r.status = 429 ∨ (r.status = 500 ∨ r.status = 502 ∨ r.status = 503 ∨ r.status = 504) ∨
    r.status = 401

instance (r : Response) : Decidable (retryableStatus r) := by
  unfold retryableStatus; infer_instance

/-- Index (among `[a, a + rem)`) of the first response the loop returns
immediately, if any. -/
def firstOk (script : Nat → Response) : Nat → Nat → Option Nat
  | _, 0 => none
  | a, rem + 1 => if retryableStatus (script a) then firstOk script (a + 1) rem else some a

/-- Sleep performed after the response of attempt `i`, per the retry policy. -/
def sleepOf (r : Response) (i : Nat) : List Nat :=
  if r.status = 429 then [r.retryAfter.getD 1]
  else if r.status = 500 ∨ r.status = 502 ∨ r.status = 503 ∨ r.status = 504 then [1 + i]
  else []

def sleepsRange (script : Nat → Response) : Nat → Nat → List Nat
  | _, 0 => []
  | a, rem + 1 => sleepOf (script a) a ++ sleepsRange script (a + 1) rem

def refrRange (script : Nat → Response) : Nat → Nat → Nat
  | _, 0 => 0
  | a, rem + 1 => (if (script a).status = 401 then 1 else 0) + refrRange script (a + 1) rem

/-! ## Model of `get_playlist_items`, `sync_playlist_new` and `cmd_sync`
(pin.py lines 232-258, 339-392, 581-597)

`die` logs and calls `sys.exit`, which terminates the whole process; it is
modelled as `Except.error`, which likewise aborts everything that follows.
Each playlist's reads are served by its `readScript` (a persistently failing
or healthy server); the snapshot is a single page (its `items` field), and
the mutation calls of a sync that got past its snapshot read are assumed to
succeed, as in every claim's scenario.
-/

structure PlaylistEnv where
  readScript : Nat → Response
  pins : List PinRec

def get_playlist_items (script : Nat → Response) : Except String (List String) :=
  let r := req script
  if r.response.status = 200 then Except.ok r.response.items
  else Except.error "die: Error reading tracks"

def sync_playlist_new (env : PlaylistEnv) : Except String (List String × List ApiCall) := do
  let items ← get_playlist_items env.readScript
  let deduped := ensure_no_duplicates items
  syncPinLoop deduped env.pins

def cmd_sync (envs : List PlaylistEnv) : Except String (List (List String × List ApiCall)) :=
  envs.foldlM (fun acc env => do
      let r ← sync_playlist_new env
      pure (acc ++ [r]))
    []

/-! ## Concrete inputs used by the claim theorems, witnesses and
counterexamples. -/

def uA : String := "spotify:track:AAAAAAAAAAAAAAAAAAAAAA"
def uB : String := "spotify:track:BBBBBBBBBBBBBBBBBBBBBB"
def uC : String := "spotify:track:CCCCCCCCCCCCCCCCCCCCCC"
def uD : String := "spotify:track:DDDDDDDDDDDDDDDDDDDDDD"
def uE : String := "spotify:track:EEEEEEEEEEEEEEEEEEEEEE"
def uF : String := "spotify:track:FFFFFFFFFFFFFFFFFFFFFF"

def aId22 : List Char := "AAAAAAAAAAAAAAAAAAAAAA".data
def bId22 : List Char := "BBBBBBBBBBBBBBBBBBBBBB".data

/-- An early bare 22-character run followed by a track URL with a different
id: exercises the priority of `TRACK_URL_RX` over the leftmost run. -/
def mixedInput : String :=
  "AAAAAAAAAAAAAAAAAAAAAA open.spotify.com/track/BBBBBBBBBBBBBBBBBBBBBB"

/-- Server script: 429 with Retry-After 7, then 503, then 200. -/
def scriptMixed : Nat → Response :=
  fun i => if i = 0 then ⟨429, some 7, []⟩ else if i = 1 then ⟨503, none, []⟩ else ⟨200, none, []⟩

/-- Server script: 401 then 200. -/
def script401 : Nat → Response :=
  fun i => if i = 0 then ⟨401, none, []⟩ else ⟨200, none, []⟩

/-- A playlist whose server persistently returns 503. -/
def envFail : PlaylistEnv := ⟨fun _ => ⟨503, none, []⟩, []⟩

/-- A healthy sibling playlist whose sync needs one reorder. -/
def envOk : PlaylistEnv := ⟨fun _ => ⟨200, none, [uA, uB]⟩, [⟨uB, 1⟩]⟩

/-! ## Helper lemmas about the list primitives -/

theorem listInsertAt_at_length {α : Type} (x : α) (l : List α) :
    listInsertAt l.length x l = l ++ [x] := by
  induction l with
  | nil => rfl
  | cons a l ih => simp [listInsertAt, ih]

theorem listRemoveAt_eq_take_drop {α : Type} :
    ∀ (n : Nat) (l : List α), listRemoveAt n l = l.take n ++ l.drop (n + 1) := by
  intro n l
  induction l generalizing n with
  | nil => cases n <;> rfl
  | cons a l ih => cases n with
    | zero => rfl
    | succ m => simp [listRemoveAt, ih]

theorem listInsertAt_eq_take_drop {α : Type} :
    ∀ (n : Nat) (x : α) (l : List α), n ≤ l.length →
      listInsertAt n x l = l.take n ++ x :: l.drop n := by
  intro n x l
  induction l generalizing n with
  | nil =>
    intro h
    have hn : n = 0 := Nat.le_zero.mp (by simpa using h)
    subst hn; rfl
  | cons a l ih => intro h; cases n with
    | zero => rfl
    | succ m => simp [listInsertAt, ih m (by simpa using h)]

theorem listRemoveAt_length {α : Type} :
    ∀ (n : Nat) (l : List α), n < l.length → (listRemoveAt n l).length = l.length - 1 := by
  intro n l
  induction l generalizing n with
  | nil => intro h; simp at h
  | cons a l ih => intro h; cases n with
    | zero => rfl
    | succ m =>
      have hm : m < l.length := by simpa using h
      have := ih m hm
      simp [listRemoveAt, this]
      omega

theorem find_index_getElem :
    ∀ (l : List String) (uri : String) (i : Nat), find_index l uri = some i → l[i]? = some uri := by
  intro l
  induction l with
  | nil => intro uri i h; simp [find_index] at h
  | cons u rest ih =>
    intro uri i h
    by_cases hu : u = uri
    · simp [find_index, hu] at h
      subst h; simp [hu]
    · simp [find_index, hu] at h
      obtain ⟨j, hj, rfl⟩ := h
      simpa using ih uri j hj

theorem find_index_lt_length :
    ∀ (l : List String) (uri : String) (i : Nat), find_index l uri = some i → i < l.length := by
  intro l
  induction l with
  | nil => intro uri i h; simp [find_index] at h
  | cons u rest ih =>
    intro uri i h
    by_cases hu : u = uri
    · simp [find_index, hu] at h; simp only [List.length_cons]; omega
    · simp [find_index, hu] at h
      obtain ⟨j, hj, rfl⟩ := h
      have := ih uri j hj
      simp only [List.length_cons]; omega

/-! ## Helper: the local-mirror update equals the remote range-move -/

theorem mirrorMove_eq_spotifyMoveOne {α : Type} (l : List α) (cur d : Nat)
    (hcur : cur < l.length) (hd : d ≤ l.length) :
    mirrorMove l cur d = spotifyMoveOne l cur d := by
  obtain ⟨x, hx⟩ : ∃ x, l[cur]? = some x := ⟨l[cur], List.getElem?_eq_getElem hcur⟩
  have hlen_take : (l.take cur).length = cur := by simp; omega
  simp only [mirrorMove, spotifyMoveOne, hx]
  by_cases hcd : cur < d
  · rw [if_pos (show d > cur from hcd), if_pos hcd, listRemoveAt_eq_take_drop,
      listInsertAt_eq_take_drop (d - 1) x _ (by simp; omega)]
    rw [List.take_append_eq_append_take, List.drop_append_eq_append_drop, hlen_take,
      List.take_take, List.drop_take, List.drop_drop]
    rw [show min (d - 1) cur = cur by omega, show d - 1 - cur = d - (cur + 1) by omega,
      show cur - (d - 1) = 0 by omega, show cur + 1 + (d - (cur + 1)) = d by omega]
    simp
  · rw [if_neg (show ¬ d > cur from hcd), if_neg hcd, listRemoveAt_eq_take_drop,
      listInsertAt_eq_take_drop d x _ (by simp; omega)]
    rw [List.take_append_eq_append_take, List.drop_append_eq_append_drop, hlen_take,
      List.take_take, List.drop_take]
    rw [show min d cur = d by omega, show d - cur = 0 by omega]
    simp

/-! ## Helper lemmas about the retry loop -/

theorem reqGo_step (script : Nat → Response) (rem a : Nat) (sleeps : List Nat) (refr : Nat)
    (last : Response) (h : retryableStatus (script a)) :
    reqGo script (rem + 1) a sleeps refr last =
      reqGo script rem (a + 1) (sleeps ++ sleepOf (script a) a)
        (refr + (if (script a).status = 401 then 1 else 0)) (script a) := by
  rcases h with h | h | h
  · simp [reqGo, sleepOf, h]
  · have h429 : ¬ (script a).status = 429 := by rcases h with h | h | h | h <;> omega
    have h401 : ¬ (script a).status = 401 := by rcases h with h | h | h | h <;> omega
    simp [reqGo, sleepOf, h, h429, h401]
  · have h429 : ¬ (script a).status = 429 := by omega
    have h5xx : ¬ ((script a).status = 500 ∨ (script a).status = 502 ∨
        (script a).status = 503 ∨ (script a).status = 504) := by omega
    simp [reqGo, sleepOf, h, h429, h5xx]

theorem reqGo_done (script : Nat → Response) (rem a : Nat) (sleeps : List Nat) (refr : Nat)
    (last : Response) (h : ¬ retryableStatus (script a)) :
    reqGo script (rem + 1) a sleeps refr last = ⟨script a, sleeps, refr, a + 1⟩ := by
  have h429 : ¬ (script a).status = 429 := fun hc => h (Or.inl hc)
  have h5xx : ¬ ((script a).status = 500 ∨ (script a).status = 502 ∨
      (script a).status = 503 ∨ (script a).status = 504) := fun hc => h (Or.inr (Or.inl hc))
  have h401 : ¬ (script a).status = 401 := fun hc => h (Or.inr (Or.inr hc))
  simp [reqGo, h429, h5xx, h401]

theorem firstOk_ge (script : Nat → Response) :
    ∀ (n a k : Nat), firstOk script a n = some k → a ≤ k := by
  intro n
  induction n with
  | zero => intro a k h; simp [firstOk] at h
  | succ m ih =>
    intro a k h
    rw [show firstOk script a (m + 1) =
      if retryableStatus (script a) then firstOk script (a + 1) m else some a from rfl] at h
    by_cases hr : retryableStatus (script a)
    · rw [if_pos hr] at h
      exact Nat.le_of_succ_le (ih (a + 1) k h)
    · rw [if_neg hr] at h
      have : a = k := by injection h
      omega

theorem firstOk_lt (script : Nat → Response) :
    ∀ (n a k : Nat), firstOk script a n = some k → k < a + n := by
  intro n
  induction n with
  | zero => intro a k h; simp [firstOk] at h
  | succ m ih =>
    intro a k h
    rw [show firstOk script a (m + 1) =
      if retryableStatus (script a) then firstOk script (a + 1) m else some a from rfl] at h
    by_cases hr : retryableStatus (script a)
    · rw [if_pos hr] at h
      have := ih (a + 1) k h
      omega
    · rw [if_neg hr] at h
      have : a = k := by injection h
      omega

/-- Full characterization of the retry loop in terms of the response script:
it returns the first non-retryable response (sleeping per policy along the
way), or the last response as-is after exhausting its budget. -/
theorem reqGo_correct (script : Nat → Response) :
    ∀ (rem a : Nat) (sleeps : List Nat) (refr : Nat) (last : Response),
      reqGo script (rem + 1) a sleeps refr last =
        match firstOk script a (rem + 1) with
        | some k =>
          ⟨script k, sleeps ++ sleepsRange script a (k - a),
           refr + refrRange script a (k - a), k + 1⟩
        | none =>
          ⟨script (a + rem), sleeps ++ sleepsRange script a (rem + 1),
           refr + refrRange script a (rem + 1), a + rem + 1⟩ := by
  intro rem
  induction rem with
  | zero =>
    intro a sleeps refr last
    by_cases hr : retryableStatus (script a)
    · rw [reqGo_step script 0 a sleeps refr last hr]
      rw [show firstOk script a 1 =
        if retryableStatus (script a) then firstOk script (a + 1) 0 else some a from rfl]
      rw [if_pos hr]
      simp [reqGo, firstOk, sleepsRange, refrRange]
    · rw [reqGo_done script 0 a sleeps refr last hr]
      rw [show firstOk script a 1 =
        if retryableStatus (script a) then firstOk script (a + 1) 0 else some a from rfl]
      rw [if_neg hr]
      simp [sleepsRange, refrRange]
  | succ r ih =>
    intro a sleeps refr last
    by_cases hr : retryableStatus (script a)
    · rw [reqGo_step script (r + 1) a sleeps refr last hr, ih]
      rw [show firstOk script a (r + 1 + 1) =
        if retryableStatus (script a) then firstOk script (a + 1) (r + 1) else some a from rfl]
      rw [if_pos hr]
      cases hk : firstOk script (a + 1) (r + 1) with
      | some k =>
        have hak : a + 1 ≤ k := firstOk_ge script (r + 1) (a + 1) k hk
        simp only []
        rw [show k - a = (k - (a + 1)) + 1 by omega]
        rw [show sleepsRange script a ((k - (a + 1)) + 1) =
          sleepOf (script a) a ++ sleepsRange script (a + 1) (k - (a + 1)) from rfl]
        rw [show refrRange script a ((k - (a + 1)) + 1) =
          (if (script a).status = 401 then 1 else 0) + refrRange script (a + 1) (k - (a + 1))
          from rfl]
        simp [List.append_assoc, Nat.add_assoc]
      | none =>
        simp only []
        rw [show sleepsRange script a (r + 1 + 1) =
          sleepOf (script a) a ++ sleepsRange script (a + 1) (r + 1) from rfl]
        rw [show refrRange script a (r + 1 + 1) =
          (if (script a).status = 401 then 1 else 0) + refrRange script (a + 1) (r + 1)
          from rfl]
        rw [show a + 1 + r = a + (r + 1) by omega]
        simp [List.append_assoc, Nat.add_assoc]
    · rw [reqGo_done script (r + 1) a sleeps refr last hr]
      rw [show firstOk script a (r + 1 + 1) =
        if retryableStatus (script a) then firstOk script (a + 1) (r + 1) else some a from rfl]
      rw [if_neg hr]
      simp [sleepsRange, refrRange]

/-! ## Claim theorems -/

/-- C1 (code_bug evidence): on the snapshot `[A,B,A,C,B]` the code removes
all occurrences of the duplicated identifiers A and B and never re-adds
them (the re-read after removal finds no remaining duplicate, so the
re-insert branch is dead): the collection ends as `[C]`, not one copy each
of A, B, C. -/
theorem c1_dedup_drops_duplicated_ids :
    ensure_no_duplicates [uA, uB, uA, uC, uB] = [uC] ∧
    (ensure_no_duplicates [uA, uB, uA, uC, uB]).length ≠ 3 ∧
    uA ∉ ensure_no_duplicates [uA, uB, uA, uC, uB] := by
  decide

/-- C2 (code_bug evidence): on the deduplicated ordering `[A,B,C]` with the
single pin (B, position 3) — unique positions — one run issues the reorder
`range_start=1, insert_before=2` and leaves the ordering unchanged, so the
second run (same input, no external changes) issues the same mutation again
instead of zero mutation calls. -/
theorem c2_second_run_issues_mutation :
    syncPinLoop [uA, uB, uC] [⟨uB, 3⟩] =
      Except.ok ([uA, uB, uC], [ApiCall.reorder 1 2 1]) ∧
    ([ApiCall.reorder 1 2 1] : List ApiCall) ≠ [] := by
  decide

/-- C3 (code_bug evidence): on the initial ordering `[A,B,C,D]` of distinct
items with the pin (A, position 3), after the reconciliation run A sits at
observed index 1, not `position - 1 = 2`: the forward move uses
`insert_before = position - 1`, which lands the item one slot short. -/
theorem c3_pinned_index_not_position_minus_one :
    syncPinLoop [uA, uB, uC, uD] [⟨uA, 3⟩] =
      Except.ok ([uB, uA, uC, uD], [ApiCall.reorder 0 2 1]) ∧
    find_index [uB, uA, uC, uD] uA = some 1 ∧ (1 : Nat) ≠ 3 - 1 := by
  decide

/-- C4: the local-mirror update (pop at `cur`; decrement `desired` when it
exceeds `cur`; insert at the corrected index) coincides with the remote
single-item range-move semantics, for every mirror, source index and
in-range destination; and the two concrete bookkeeping examples of the
claim. -/
theorem c4_mirror_bookkeeping :
    (∀ (l : List String) (cur d : Nat), cur < l.length → d ≤ l.length →
        mirrorMove l cur d = spotifyMoveOne l cur d) ∧
    mirrorMove [uA, uB, uC, uD] 2 0 = [uC, uA, uB, uD] ∧
    mirrorMove [uC, uA, uB, uD] 1 3 = [uC, uB, uA, uD] :=
  ⟨fun l cur d hcur hd => mirrorMove_eq_spotifyMoveOne l cur d hcur hd,
   by decide, by decide⟩

/-- C4 witness: the claim's first concrete move, with the hypotheses
discharged at `[A,B,C,D]`, `cur = 2`, `desired = 0`. -/
theorem c4_witness :
    mirrorMove [uA, uB, uC, uD] 2 0 = spotifyMoveOne [uA, uB, uC, uD] 2 0 ∧
    spotifyMoveOne [uA, uB, uC, uD] 2 0 = [uC, uA, uB, uD] :=
  ⟨c4_mirror_bookkeeping.1 [uA, uB, uC, uD] 2 0 (by decide) (by decide), by decide⟩

/-- C5 counterexample: a batch of two playlists where the first one's server
always answers 503: the whole batch dies on the first playlist's snapshot
read (`die` calls `sys.exit`), while the healthy sibling — which on its own
syncs fine with one reorder — is never processed. -/
theorem c5_counterexample_batch_dies :
    cmd_sync [envFail, envOk] = Except.error "die: Error reading tracks" ∧
    cmd_sync [envOk] = Except.ok [([uB, uA], [ApiCall.reorder 1 0 1])] := by
  decide

/-- C5 amended: when a playlist's snapshot read exhausts the retry budget
without a 200 (for example a server answering 503 on all 5 attempts),
`die`/`sys.exit` aborts the entire batch: no later playlist of the batch is
processed. -/
theorem c5_read_failure_aborts_whole_batch (env : PlaylistEnv) (rest : List PlaylistEnv)
    (h : (req env.readScript).response.status ≠ 200) :
    cmd_sync (env :: rest) = Except.error "die: Error reading tracks" := by
  simp [cmd_sync, List.foldlM, sync_playlist_new, get_playlist_items, h, Bind.bind, Except.bind]

/-- C5 witness: the amended claim applied to the concrete all-503 playlist
followed by a healthy sibling. -/
theorem c5_witness :
    cmd_sync [envFail, envOk] = Except.error "die: Error reading tracks" :=
  c5_read_failure_aborts_whole_batch envFail [envOk] (by decide)

/-- C6: clamping. Whenever the declared position exceeds what the collection
can accommodate (`position > N + 1` when the item is absent, `position > N`
when it is present, `N` the current mirror length), the call is issued with
`insert_before = N` and the pinned item ends at the current end of the
mirror, with no error: the absent case appends (`add` at position `N`), the
present case moves the item to the last slot. -/
theorem c6_clamping (uris : List String) (pin : PinRec) (uri : String)
    (hn : normalize_track_id pin.track_id = Except.ok uri) :
    (find_index uris uri = none → pin.position > (uris.length : Int) + 1 →
      syncPinStep uris pin =
        Except.ok (uris ++ [uri], [ApiCall.add uri (some uris.length)])) ∧
    (∀ cur, find_index uris uri = some cur → pin.position > (uris.length : Int) →
      syncPinStep uris pin =
        Except.ok (listRemoveAt cur uris ++ [uri], [ApiCall.reorder cur uris.length 1])) := by
  constructor
  · intro hno hpos
    simp only [syncPinStep, hn, Bind.bind, Except.bind, hno, Option.isSome_none,
      Bool.false_eq_true, if_false]
    rw [if_pos (show pin.position > (uris.length : Int) + 1 from hpos)]
    simp [listInsertAt_at_length]
  · intro cur hcur hpos
    have hlt : cur < uris.length := find_index_lt_length uris uri cur hcur
    have hget : uris[cur]? = some uri := find_index_getElem uris uri cur hcur
    simp only [syncPinStep, hn, Bind.bind, Except.bind, hcur, Option.isSome_some, if_true]
    rw [if_pos (show pin.position > (uris.length : Int) + 0 by omega)]
    rw [show min (uris.length) (uris.length) = uris.length from min_self _]
    rw [if_pos (show cur ≠ uris.length by omega)]
    simp only [mirrorMove, hget]
    rw [if_pos (show uris.length > cur from hlt)]
    rw [show uris.length - 1 = (listRemoveAt cur uris).length from
      (listRemoveAt_length cur uris hlt).symm, listInsertAt_at_length]

/-- C6 witness: pin position 100 on the 5-item collection `[A,B,C,D,E]`
(item F absent) appends F at index 5 with no error. -/
theorem c6_witness :
    syncPinStep [uA, uB, uC, uD, uE] ⟨uF, 100⟩ =
      Except.ok ([uA, uB, uC, uD, uE] ++ [uF], [ApiCall.add uF (some 5)]) :=
  (c6_clamping [uA, uB, uC, uD, uE] ⟨uF, 100⟩ uF (by decide)).1 (by decide) (by decide)

/-- C7: the retry policy of `_req`. At most 5 attempts are made; the loop
returns at the first response whose status is not one of 429/500/502/503/504/
401, having slept the `Retry-After` value (default 1) after each 429 and
`1 + attemptIndex` after each 5xx; and when all 5 attempts draw retryable
statuses, the 5th (last) response is returned as-is. -/
theorem c7_retry_policy (script : Nat → Response) :
    (req script).attempts ≤ 5 ∧
    (∀ k, firstOk script 0 5 = some k →
      req script = ⟨script k, sleepsRange script 0 k, refrRange script 0 k, k + 1⟩) ∧
    (firstOk script 0 5 = none →
      req script = ⟨script 4, sleepsRange script 0 5, refrRange script 0 5, 5⟩) := by
  have hc := reqGo_correct script 4 0 [] 0 ⟨0, none, []⟩
  have hreq : req script =
      match firstOk script 0 5 with
      | some k => ⟨script k, sleepsRange script 0 k, refrRange script 0 k, k + 1⟩
      | none => ⟨script 4, sleepsRange script 0 5, refrRange script 0 5, 5⟩ := by
    rw [show req script = reqGo script (4 + 1) 0 [] 0 ⟨0, none, []⟩ from rfl, hc]
    cases firstOk script 0 5 with
    | some k => simp
    | none => simp
  refine ⟨?_, ?_, ?_⟩
  · rw [hreq]
    cases hk : firstOk script 0 5 with
    | some k =>
      have := firstOk_lt script 5 0 k hk
      simp only []
      omega
    | none => simp only []; omega
  · intro k hk; rw [hreq, hk]
  · intro hk; rw [hreq, hk]

/-- C7 witness: the script 429 (Retry-After 7), 503, 200 sleeps 7 then
1 + 1 = 2 seconds, performs 3 attempts and returns the 200 response. -/
theorem c7_witness :
    firstOk scriptMixed 0 5 = some 2 ∧
    req scriptMixed = ⟨⟨200, none, []⟩, [7, 2], 0, 3⟩ :=
  ⟨by decide, (c7_retry_policy scriptMixed).2.1 2 (by decide)⟩

/-- C8: a call whose first response is 401 and whose second is 200 (from a
valid, non-expired session) returns the 200 response, with exactly one token
refresh invoked in between and 2 of the 5 budgeted attempts used. -/
theorem c8_token_refresh_on_401 (script : Nat → Response)
    (h0 : (script 0).status = 401) (h1 : (script 1).status = 200) :
    req script = ⟨script 1, [], 1, 2⟩ := by
  have hr0 : retryableStatus (script 0) := Or.inr (Or.inr h0)
  have hr1 : ¬ retryableStatus (script 1) := by
    simp [retryableStatus, h1]
  have hf : firstOk script 0 5 = some 1 := by
    rw [show firstOk script 0 5 =
      if retryableStatus (script 0) then firstOk script 1 4 else some 0 from rfl, if_pos hr0]
    rw [show firstOk script 1 4 =
      if retryableStatus (script 1) then firstOk script 2 3 else some 1 from rfl, if_neg hr1]
  have hc := reqGo_correct script 4 0 [] 0 ⟨0, none, []⟩
  rw [show req script = reqGo script (4 + 1) 0 [] 0 ⟨0, none, []⟩ from rfl, hc, hf]
  simp only []
  rw [show (1 : Nat) - 0 = 0 + 1 from rfl]
  rw [show sleepsRange script 0 (0 + 1) = sleepOf (script 0) 0 ++ sleepsRange script 1 0 from rfl]
  rw [show refrRange script 0 (0 + 1) =
    (if (script 0).status = 401 then 1 else 0) + refrRange script 1 0 from rfl]
  simp [sleepOf, sleepsRange, refrRange, h0]

/-- C8 witness: the concrete 401-then-200 script succeeds with one refresh. -/
theorem c8_witness : req script401 = ⟨⟨200, none, []⟩, [], 1, 2⟩ :=
  c8_token_refresh_on_401 script401 (by decide) (by decide)

/-- C9 counterexample: with the pin set
`[(track_id "zzz", position 1), (B, position 2)]` on `[A,B,C]`, the
unresolvable first pin raises `ValueError` and the whole sync run errors out
— the remaining pin (which alone is processed fine, here as a no-op) is
never reached, instead of being reported, skipped and followed by the rest. -/
theorem c9_counterexample_error_aborts :
    syncPinLoop [uA, uB, uC] [⟨"zzz", 1⟩, ⟨uB, 2⟩] =
      Except.error "Cannot recognize track_id" ∧
    syncPinLoop [uA, uB, uC] [⟨uB, 2⟩] = Except.ok ([uA, uB, uC], []) := by
  decide

/-- C9 amended: a pin whose track identifier cannot be resolved raises
`ValueError` out of the pin loop (there is no try/except around it), which
aborts the whole sync of that collection: the remaining pins are not
processed. Stated for the first pin in ascending-position order, where the
exception fires. -/
theorem c9_unresolvable_pin_aborts_run (uris : List String) (pins : List PinRec)
    (p : PinRec) (rest : List PinRec) (e : String)
    (hs : sortPins pins = p :: rest) (hn : normalize_track_id p.track_id = Except.error e) :
    syncPinLoop uris pins = Except.error e := by
  simp [syncPinLoop, runPins, hs, List.foldlM, syncPinStep, hn, Bind.bind, Except.bind]

/-- C9 witness: the amended claim at a concrete unresolvable pin. -/
theorem c9_witness :
    syncPinLoop [uA] [⟨"!!", 5⟩] = Except.error "Cannot recognize track_id" :=
  c9_unresolvable_pin_aborts_run [uA] [⟨"!!", 5⟩] ⟨"!!", 5⟩ [] _ rfl (by decide)


/-! ## Helper lemmas for the `normalize_track_id` model -/

theorem firstWindow_cons_none {c : Char} {r : List Char} (h : window22 (c :: r) = none) :
    firstWindow (c :: r) = firstWindow r := by
  simp [firstWindow, h]

theorem firstWindow_cons_some {c : Char} {r w : List Char}
    (h : window22 (c :: r) = some w) : firstWindow (c :: r) = some w := by
  simp [firstWindow, h]

theorem window22_some {l w : List Char} (h : window22 l = some w) :
    w = l.take 22 ∧ w.length = 22 ∧ w.all isAlnumChar = true := by
  by_cases hc : ((l.take 22).all isAlnumChar && (l.take 22).length == 22) = true
  · rw [window22, if_pos hc] at h
    obtain ⟨h1, h2⟩ := Bool.and_eq_true_iff.mp hc
    injection h with h
    subst h
    exact ⟨rfl, by simpa using h2, h1⟩
  · rw [window22, if_neg hc] at h
    exact absurd h (by simp)

theorem window22_self {l : List Char} (hlen : l.length = 22) (hall : l.all isAlnumChar = true) :
    window22 l = some l := by
  have ht : l.take 22 = l := List.take_of_length_le (by omega)
  rw [window22, ht, if_pos (by simp [hall, hlen])]

theorem firstWindow_of_window22 {l w : List Char} (h : window22 l = some w) :
    firstWindow l = some w := by
  cases l with
  | nil => exact absurd h (by simp [window22])
  | cons c r => exact firstWindow_cons_some h

theorem firstWindow_trackUri (tail : List Char) :
    firstWindow (trackUriLit ++ tail) = firstWindow tail := rfl

theorem firstWindow_playlistUri (tail : List Char) :
    firstWindow (playlistUriLit ++ tail) = firstWindow tail := rfl

theorem listLeads_iff : ∀ (p l : List Char), listLeads p l = true ↔ ∃ t, l = p ++ t := by
  intro p
  induction p with
  | nil => intro l; simp [listLeads]
  | cons a as ih =>
    intro l
    cases l with
    | nil =>
      simp only [listLeads, List.cons_append]
      constructor
      · intro h; exact absurd h (by simp)
      · rintro ⟨t, ht⟩; exact absurd ht (by simp)
    | cons b bs =>
      simp only [listLeads, Bool.and_eq_true, beq_iff_eq, ih bs, List.cons_append]
      constructor
      · rintro ⟨rfl, t, rfl⟩; exact ⟨t, rfl⟩
      · rintro ⟨t, ht⟩
        injection ht with h1 h2
        exact ⟨h1.symm, t, h2⟩

theorem listLeads_append (p t : List Char) : listLeads p (p ++ t) = true :=
  (listLeads_iff p (p ++ t)).mpr ⟨t, rfl⟩

theorem matchSpotifyIdAt_track (tail : List Char) :
    matchSpotifyIdAt (trackUriLit ++ tail) = window22 tail := by
  have h : matchSpotifyIdAt (trackUriLit ++ tail) =
      match window22 tail with | some w => some w | none => none := rfl
  rw [h]; cases window22 tail <;> rfl

theorem matchSpotifyIdAt_playlist (tail : List Char) :
    matchSpotifyIdAt (playlistUriLit ++ tail) = window22 tail := by
  have h : matchSpotifyIdAt (playlistUriLit ++ tail) =
      match window22 tail with | some w => some w | none => none := rfl
  rw [h]; cases window22 tail <;> rfl

theorem matchSpotifyIdAt_bare {l : List Char} (hT : listLeads trackUriLit l = false)
    (hP : listLeads playlistUriLit l = false) : matchSpotifyIdAt l = window22 l := by
  rw [matchSpotifyIdAt, hT, hP]
  cases window22 l <;> rfl

theorem reSearch_cons (m : List Char → Option (List Char)) (c : Char) (rest : List Char) :
    reSearch m (c :: rest) =
      match m (c :: rest) with | some w => some w | none => reSearch m rest := rfl

/-- The `SPOTIFY_ID_RX` search finds exactly the leftmost 22-character
alphanumeric window: the optional URI prefixes never change the captured
group, because every position inside a prefix is blocked by one of its `:`
characters. -/
theorem reSearch_spotifyId : ∀ l : List Char, reSearch matchSpotifyIdAt l = firstWindow l := by
  intro l
  induction l with
  | nil => rfl
  | cons c rest ih =>
    rw [reSearch_cons]
    by_cases hT : listLeads trackUriLit (c :: rest) = true
    · obtain ⟨tail, htail⟩ := (listLeads_iff _ _).mp hT
      rw [htail, matchSpotifyIdAt_track, firstWindow_trackUri]
      cases hw : window22 tail with
      | some w => rw [firstWindow_of_window22 hw]
      | none =>
        show reSearch matchSpotifyIdAt rest = firstWindow tail
        rw [ih]
        have hcr : window22 (c :: rest) = none := by rw [htail]; rfl
        have h1 : firstWindow (c :: rest) = firstWindow rest := firstWindow_cons_none hcr
        have h2 : firstWindow (c :: rest) = firstWindow tail := by
          rw [htail, firstWindow_trackUri]
        rw [← h1, h2]
    · by_cases hP : listLeads playlistUriLit (c :: rest) = true
      · obtain ⟨tail, htail⟩ := (listLeads_iff _ _).mp hP
        rw [htail, matchSpotifyIdAt_playlist, firstWindow_playlistUri]
        cases hw : window22 tail with
        | some w => rw [firstWindow_of_window22 hw]
        | none =>
          show reSearch matchSpotifyIdAt rest = firstWindow tail
          rw [ih]
          have hcr : window22 (c :: rest) = none := by rw [htail]; rfl
          have h1 : firstWindow (c :: rest) = firstWindow rest := firstWindow_cons_none hcr
          have h2 : firstWindow (c :: rest) = firstWindow tail := by
            rw [htail, firstWindow_playlistUri]
          rw [← h1, h2]
      · have hT2 : listLeads trackUriLit (c :: rest) = false := by simpa using hT
        have hP2 : listLeads playlistUriLit (c :: rest) = false := by simpa using hP
        rw [matchSpotifyIdAt_bare hT2 hP2]
        cases hw : window22 (c :: rest) with
        | some w => rw [firstWindow_cons_some hw]
        | none =>
          show reSearch matchSpotifyIdAt rest = firstWindow (c :: rest)
          rw [ih, firstWindow_cons_none hw]

theorem isSpace_of_not_alnum {c : Char} (h : isAlnumChar c = true) : isSpaceChar c = false := by
  by_contra hs
  have hs2 : isSpaceChar c = true := by revert hs; cases isSpaceChar c <;> simp
  simp only [isSpaceChar, Bool.or_eq_true, beq_iff_eq] at hs2
  rcases hs2 with ((((rfl | rfl) | rfl) | rfl) | rfl) | rfl <;> exact absurd h (by decide)

theorem not_alnum_of_space {c : Char} (h : isSpaceChar c = true) : isAlnumChar c = false := by
  simp only [isSpaceChar, Bool.or_eq_true, beq_iff_eq] at h
  rcases h with ((((rfl | rfl) | rfl) | rfl) | rfl) | rfl <;> decide

theorem dropWhile_eq_self_of {p : Char → Bool} {l : List Char}
    (h : ∀ c ∈ l, p c = false) : l.dropWhile p = l := by
  cases l with
  | nil => rfl
  | cons a l => simp [List.dropWhile_cons, h a (by simp)]

theorem pyStrip_eq_self {l : List Char} (h : ∀ c ∈ l, isSpaceChar c = false) :
    pyStrip l = l := by
  rw [pyStrip, dropWhile_eq_self_of h,
    dropWhile_eq_self_of (fun c hc => h c (List.mem_reverse.mp hc)), List.reverse_reverse]

theorem window22_cons_not_alnum {c : Char} {r : List Char} (h : isAlnumChar c = false) :
    window22 (c :: r) = none := by
  rw [window22, show (c :: r).take 22 = c :: r.take 21 from rfl]
  simp [h]

theorem window22_append_space {x sp : List Char} (h : ∀ c ∈ sp, isSpaceChar c = true) :
    window22 (x ++ sp) = window22 x := by
  by_cases hx : 22 ≤ x.length
  · rw [window22, window22, List.take_append_eq_append_take,
      show 22 - x.length = 0 by omega]
    simp
  · cases sp with
    | nil => rw [List.append_nil]
    | cons s sp2 =>
      have hs : isAlnumChar s = false := not_alnum_of_space (h s (by simp))
      have htx : x.take 22 = x := List.take_of_length_le (by omega)
      rw [window22, window22, List.take_append_eq_append_take, htx,
        show (s :: sp2).take (22 - x.length) = s :: sp2.take (21 - x.length) by
          rw [show 22 - x.length = (21 - x.length) + 1 by omega]; rfl]
      simp [List.all_append, hs]
      exact (if_neg (by rintro ⟨h1, h2⟩; omega)).symm

theorem firstWindow_all_space : ∀ {sp : List Char}, (∀ c ∈ sp, isSpaceChar c = true) →
    firstWindow sp = none := by
  intro sp
  induction sp with
  | nil => intro h; rfl
  | cons s sp2 ih =>
    intro h
    rw [firstWindow_cons_none (window22_cons_not_alnum (not_alnum_of_space (h s (by simp))))]
    exact ih (fun c hc => h c (by simp [hc]))

theorem firstWindow_append_space {sp : List Char} (h : ∀ c ∈ sp, isSpaceChar c = true) :
    ∀ (x : List Char), firstWindow (x ++ sp) = firstWindow x := by
  intro x
  induction x with
  | nil => rw [List.nil_append]; exact firstWindow_all_space h
  | cons a x2 ih =>
    have hw := window22_append_space (x := a :: x2) h
    rw [List.cons_append]
    cases hw2 : window22 (a :: x2) with
    | some w =>
      rw [hw2] at hw
      rw [firstWindow_cons_some (show window22 (a :: (x2 ++ sp)) = some w from hw),
        firstWindow_cons_some hw2]
    | none =>
      rw [hw2] at hw
      rw [firstWindow_cons_none (show window22 (a :: (x2 ++ sp)) = none from hw),
        firstWindow_cons_none hw2]
      exact ih

theorem firstWindow_dropWhile : ∀ (l : List Char),
    firstWindow (l.dropWhile isSpaceChar) = firstWindow l := by
  intro l
  induction l with
  | nil => rfl
  | cons a l2 ih =>
    by_cases hs : isSpaceChar a = true
    · rw [List.dropWhile_cons, if_pos hs, ih,
        firstWindow_cons_none (window22_cons_not_alnum (not_alnum_of_space hs))]
    · rw [List.dropWhile_cons, if_neg hs]

/-- Stripping whitespace does not change the leftmost 22-character alphanumeric
window: the stripped characters are whitespace and cannot take part in one. -/
theorem firstWindow_pyStrip (l : List Char) : firstWindow (pyStrip l) = firstWindow l := by
  rw [pyStrip]
  have hdecomp : (((l.dropWhile isSpaceChar).reverse.dropWhile isSpaceChar).reverse ++
      ((l.dropWhile isSpaceChar).reverse.takeWhile isSpaceChar).reverse) =
      l.dropWhile isSpaceChar := by
    rw [← List.reverse_append, List.takeWhile_append_dropWhile, List.reverse_reverse]
  have hsp : ∀ c ∈ ((l.dropWhile isSpaceChar).reverse.takeWhile isSpaceChar).reverse,
      isSpaceChar c = true := by
    intro c hc
    exact List.mem_takeWhile_imp (List.mem_reverse.mp hc)
  calc firstWindow ((l.dropWhile isSpaceChar).reverse.dropWhile isSpaceChar).reverse
      = firstWindow (((l.dropWhile isSpaceChar).reverse.dropWhile isSpaceChar).reverse ++
          ((l.dropWhile isSpaceChar).reverse.takeWhile isSpaceChar).reverse) :=
        (firstWindow_append_space hsp _).symm
    _ = firstWindow (l.dropWhile isSpaceChar) := by rw [hdecomp]
    _ = firstWindow l := firstWindow_dropWhile l

/-! ## Helper lemmas: when the `TRACK_URL_RX` search must fail, and what a
successful search implies -/

theorem matchTrackUrlAt_none {l : List Char} (h : ('.' : Char) ∉ l) :
    matchTrackUrlAt l = none := by
  rw [matchTrackUrlAt]
  by_cases hl : listLeads trackUrlLit l = true
  · obtain ⟨t, rfl⟩ := (listLeads_iff _ _).mp hl
    exact absurd (List.mem_append_left t (by decide : ('.' : Char) ∈ trackUrlLit)) h
  · rw [show listLeads trackUrlLit l = false by simpa using hl]
    rfl

theorem reSearch_trackUrl_none : ∀ {l : List Char}, ('.' : Char) ∉ l →
    reSearch matchTrackUrlAt l = none := by
  intro l
  induction l with
  | nil => intro h; rfl
  | cons c rest ih =>
    intro h
    rw [reSearch_cons, matchTrackUrlAt_none h]
    exact ih (fun hc => h (by simp [hc]))

theorem reSearch_some_suffix {m : List Char → Option (List Char)} :
    ∀ {l w : List Char}, reSearch m l = some w → ∃ t, t <:+ l ∧ m t = some w := by
  intro l
  induction l with
  | nil => intro w h; exact ⟨[], List.nil_suffix, h⟩
  | cons c rest ih =>
    intro w h
    rw [reSearch_cons] at h
    cases hm : m (c :: rest) with
    | some w2 =>
      rw [hm] at h
      injection h with h
      exact ⟨c :: rest, List.suffix_refl _, by rw [hm, h]⟩
    | none =>
      rw [hm] at h
      obtain ⟨t, ht, hmt⟩ := ih h
      exact ⟨t, ht.trans (List.suffix_cons c rest), hmt⟩

theorem matchTrackUrlAt_some {t w : List Char} (h : matchTrackUrlAt t = some w) :
    window22 (t.drop 23) = some w := by
  rw [matchTrackUrlAt] at h
  by_cases hl : listLeads trackUrlLit t = true
  · rwa [hl, if_pos rfl] at h
  · rw [show listLeads trackUrlLit t = false by simpa using hl] at h
    exact absurd h (by simp)

theorem matchSpotifyIdAt_some {t w : List Char} (h : matchSpotifyIdAt t = some w) :
    window22 (t.drop 14) = some w ∨ window22 (t.drop 17) = some w ∨ window22 t = some w := by
  rw [matchSpotifyIdAt] at h
  cases h1 : (if listLeads trackUriLit t then window22 (t.drop 14) else none) with
  | some w1 =>
    rw [h1] at h
    injection h with h
    subst h
    by_cases hb : listLeads trackUriLit t = true
    · rw [hb, if_pos rfl] at h1; exact Or.inl h1
    · rw [show listLeads trackUriLit t = false by simpa using hb] at h1
      exact absurd h1 (by simp)
  | none =>
    rw [h1] at h
    cases h2 : (if listLeads playlistUriLit t then window22 (t.drop 17) else none) with
    | some w2 =>
      rw [h2] at h
      injection h with h
      subst h
      by_cases hb : listLeads playlistUriLit t = true
      · rw [hb, if_pos rfl] at h2; exact Or.inr (Or.inl h2)
      · rw [show listLeads playlistUriLit t = false by simpa using hb] at h2
        exact absurd h2 (by simp)
    | none =>
      rw [h2] at h
      exact Or.inr (Or.inr h)

theorem firstWindow_ne_none_of_suffix : ∀ {l t w : List Char}, t <:+ l →
    window22 t = some w → firstWindow l ≠ none := by
  intro l
  induction l with
  | nil =>
    intro t w hsuf hw
    rw [List.suffix_nil.mp hsuf] at hw
    exact absurd hw (by simp [window22])
  | cons c rest ih =>
    intro t w hsuf hw
    rcases List.suffix_cons_iff.mp hsuf with rfl | hsuf2
    · rw [firstWindow_cons_some hw]; simp
    · cases hw2 : window22 (c :: rest) with
      | some w2 => rw [firstWindow_cons_some hw2]; simp
      | none => rw [firstWindow_cons_none hw2]; exact ih hsuf2 hw

/-- Every capture of either regex is a 22-character all-alphanumeric list. -/
theorem normalizeCore_window {l w : List Char} (h : normalizeCore l = some w) :
    w.length = 22 ∧ w.all isAlnumChar = true := by
  rw [normalizeCore] at h
  have hwin : ∃ u, window22 u = some w := by
    cases h1 : reSearch matchTrackUrlAt (pyStrip l) with
    | some w1 =>
      rw [h1] at h
      injection h with h
      subst h
      obtain ⟨t, _, hmt⟩ := reSearch_some_suffix h1
      exact ⟨t.drop 23, matchTrackUrlAt_some hmt⟩
    | none =>
      rw [h1] at h
      obtain ⟨t, _, hmt⟩ := reSearch_some_suffix h
      rcases matchSpotifyIdAt_some hmt with hu | hu | hu
      · exact ⟨t.drop 14, hu⟩
      · exact ⟨t.drop 17, hu⟩
      · exact ⟨t, hu⟩
  obtain ⟨u, hu⟩ := hwin
  obtain ⟨hw1, hw2, hw3⟩ := window22_some hu
  exact ⟨hw2, hw3⟩

/-- When the URL pattern finds nothing, `normalizeCore` captures the
leftmost 22-character alphanumeric window. -/
theorem normalizeCore_eq {l : List Char} (h : reSearch matchTrackUrlAt (pyStrip l) = none) :
    normalizeCore l = firstWindow l := by
  rw [normalizeCore, h, reSearch_spotifyId, firstWindow_pyStrip]

theorem normalizeCore_ne_none_iff (l : List Char) :
    normalizeCore l ≠ none ↔ firstWindow l ≠ none := by
  constructor
  · intro h
    cases hc : normalizeCore l with
    | none => exact absurd hc h
    | some w =>
      rw [normalizeCore] at hc
      cases h1 : reSearch matchTrackUrlAt (pyStrip l) with
      | some w1 =>
        obtain ⟨t, ht, hmt⟩ := reSearch_some_suffix h1
        have hwin := matchTrackUrlAt_some hmt
        have hsuf : t.drop 23 <:+ pyStrip l := (List.drop_suffix 23 t).trans ht
        have := firstWindow_ne_none_of_suffix hsuf hwin
        rwa [firstWindow_pyStrip] at this
      | none =>
        rw [h1] at hc
        have hc2 : reSearch matchSpotifyIdAt (pyStrip l) = some w := hc
        rw [reSearch_spotifyId, firstWindow_pyStrip] at hc2
        rw [hc2]
        simp
  · intro h
    rw [normalizeCore]
    cases h1 : reSearch matchTrackUrlAt (pyStrip l) with
    | some w1 => simp
    | none =>
      rw [reSearch_spotifyId, firstWindow_pyStrip]
      exact h

theorem normalize_of_core_some {s : String} {w : List Char}
    (h : normalizeCore s.data = some w) :
    normalize_track_id s = Except.ok (String.mk (trackUriLit ++ w)) := by
  have he : normalize_track_id s =
      match normalizeCore s.data with
      | some w => Except.ok (String.mk (trackUriLit ++ w))
      | none => Except.error "Cannot recognize track_id" := rfl
  rw [he, h]

theorem normalize_of_core_none {s : String} (h : normalizeCore s.data = none) :
    normalize_track_id s = Except.error "Cannot recognize track_id" := by
  have he : normalize_track_id s =
      match normalizeCore s.data with
      | some w => Except.ok (String.mk (trackUriLit ++ w))
      | none => Except.error "Cannot recognize track_id" := rfl
  rw [he, h]

/-- C10 (amended): `normalize_track_id` succeeds exactly when the (stripped)
input contains a 22-character alphanumeric run; when the input contains no
`open.spotify.com/track/<22-char-id>` URL the result is `spotify:track:`
followed by the leftmost such run (the URL pattern, tried first, otherwise
takes priority over the leftmost run — see the counterexample); a playlist
URI `spotify:playlist:<22-char-id>` is accepted and silently converted to a
track URI; and the function is idempotent on its own outputs. -/
theorem c10_normalize_track_id (s : String) :
    ((∃ r, normalize_track_id s = Except.ok r) ↔ firstWindow s.data ≠ none) ∧
    (reSearch matchTrackUrlAt (pyStrip s.data) = none →
      ∀ w, firstWindow s.data = some w →
        normalize_track_id s = Except.ok (String.mk (trackUriLit ++ w))) ∧
    (∀ pid : List Char, pid.length = 22 → pid.all isAlnumChar = true →
      normalize_track_id (String.mk (playlistUriLit ++ pid)) =
        Except.ok (String.mk (trackUriLit ++ pid))) ∧
    (∀ r, normalize_track_id s = Except.ok r → normalize_track_id r = Except.ok r) := by
  refine ⟨?_, ?_, ?_, ?_⟩
  · constructor
    · rintro ⟨r, hr⟩
      cases hc : normalizeCore s.data with
      | none => rw [normalize_of_core_none hc] at hr; exact absurd hr (by simp)
      | some w =>
        exact (normalizeCore_ne_none_iff s.data).mp (by rw [hc]; simp)
    · intro h
      have h2 := (normalizeCore_ne_none_iff s.data).mpr h
      cases hc : normalizeCore s.data with
      | none => exact absurd hc h2
      | some w => exact ⟨_, normalize_of_core_some hc⟩
  · intro hurl w hw
    exact normalize_of_core_some (by rw [normalizeCore_eq hurl, hw])
  · intro pid hlen hall
    have hlit : ∀ c ∈ playlistUriLit, isSpaceChar c = false := by decide
    have hnos : ∀ c ∈ playlistUriLit ++ pid, isSpaceChar c = false := by
      intro c hc
      rcases List.mem_append.mp hc with h | h
      · exact hlit c h
      · exact isSpace_of_not_alnum (List.all_eq_true.mp hall c h)
    have hnod : ('.' : Char) ∉ playlistUriLit ++ pid := by
      intro hc
      rcases List.mem_append.mp hc with h | h
      · exact absurd h (by decide)
      · exact absurd (List.all_eq_true.mp hall _ h) (by decide)
    have hdata : (String.mk (playlistUriLit ++ pid)).data = playlistUriLit ++ pid := rfl
    have hurl : reSearch matchTrackUrlAt
        (pyStrip (String.mk (playlistUriLit ++ pid)).data) = none := by
      rw [hdata, pyStrip_eq_self hnos]
      exact reSearch_trackUrl_none hnod
    refine normalize_of_core_some ?_
    rw [hdata] at hurl ⊢
    rw [normalizeCore_eq hurl, firstWindow_playlistUri]
    exact firstWindow_of_window22 (window22_self hlen hall)
  · intro r hr
    cases hc : normalizeCore s.data with
    | none =>
      rw [normalize_of_core_none hc] at hr
      exact absurd hr (by simp)
    | some w =>
      rw [normalize_of_core_some hc] at hr
      injection hr with hr
      subst hr
      obtain ⟨hwlen, hwall⟩ := normalizeCore_window hc
      have hlit : ∀ c ∈ trackUriLit, isSpaceChar c = false := by decide
      have hnos : ∀ c ∈ trackUriLit ++ w, isSpaceChar c = false := by
        intro c hc2
        rcases List.mem_append.mp hc2 with h | h
        · exact hlit c h
        · exact isSpace_of_not_alnum (List.all_eq_true.mp hwall c h)
      have hnod : ('.' : Char) ∉ trackUriLit ++ w := by
        intro hc2
        rcases List.mem_append.mp hc2 with h | h
        · exact absurd h (by decide)
        · exact absurd (List.all_eq_true.mp hwall _ h) (by decide)
      have hdata : (String.mk (trackUriLit ++ w)).data = trackUriLit ++ w := rfl
      have hurl : reSearch matchTrackUrlAt
          (pyStrip (String.mk (trackUriLit ++ w)).data) = none := by
        rw [hdata, pyStrip_eq_self hnos]
        exact reSearch_trackUrl_none hnod
      refine normalize_of_core_some ?_
      rw [hdata] at hurl ⊢
      rw [normalizeCore_eq hurl, firstWindow_trackUri]
      exact firstWindow_of_window22 (window22_self hwlen hwall)

/-- C10 counterexample: on an input holding an early bare 22-character run
(of A) followed by a track URL with a different id (of B), the leftmost run
is the A run, yet `normalize_track_id` returns the B id captured by
`TRACK_URL_RX`, which is searched first — not `spotify:track:` + the first
run as claimed. -/
theorem c10_counterexample_url_beats_leftmost_run :
    firstWindow mixedInput.data = some aId22 ∧
    normalize_track_id mixedInput = Except.ok (String.mk (trackUriLit ++ bId22)) ∧
    String.mk (trackUriLit ++ bId22) ≠ String.mk (trackUriLit ++ aId22) := by
  decide

/-- C10 witness: the amended claim's playlist-URI conversion applied at a
concrete 22-character id. -/
theorem c10_witness :
    normalize_track_id (String.mk (playlistUriLit ++ bId22)) =
      Except.ok (String.mk (trackUriLit ++ bId22)) :=
  (c10_normalize_track_id "").2.2.1 bId22 (by decide) (by decide)

end PinManager
